import Mathlib

/-!
Verification of the single-slot remix job queue (the `remix-queue` Supabase
edge function and its `remix_queue` table).

The store is modelled as a list of rows; each `await`ed database call of the
handler becomes one atomic operation on that list.  Timestamps are integers
(milliseconds); comparing ISO-8601 strings of a fixed format in the database
is the same as comparing these numbers.  The stable tie order of
`order("created_at", ascending: true)` is modelled as: among rows with equal
`created_at`, the one appearing earlier in the list wins.
-/

namespace RemixQueue

/-- Lifecycle states of a queue row, as constrained by the table's CHECK
constraint: `status IN ('waiting', 'processing', 'done', 'error')`. -/
inductive Status where
  | waiting
  | processing
  | done
  | error
deriving DecidableEq, Repr

/-- String value stored in the `status` column for each state. -/
def statusStr : Status → String
  | .waiting => "waiting"
  | .processing => "processing"
  | .done => "done"
  | .error => "error"

/-- One row of the `remix_queue` table. -/
structure Row where
  id : Nat
  source_repo : String
  target_repo : String
  payment_id : Option String
  status : Status
  created_at : Int
  started_at : Option Int
  finished_at : Option Int
deriving DecidableEq, Repr

/-- The queue table: a list of rows (insertion order). -/
abbrev Store := List Row

/-- Response of the `join` action: `{ success: true, queue_id, position }`. -/
structure JoinResp where
  success : Bool
  queue_id : Nat
  position : Nat
deriving DecidableEq, Repr

/-- Response of the `position` action. `can_start = none` models a JSON
response that has no `can_start` field (the `not_found` branch). -/
structure PollResp where
  success : Bool
  position : Nat
  status : String
  can_start : Option Bool
deriving DecidableEq, Repr

/-- The count query shared by `join` and `position`:
`select count(*) where status in ('waiting','processing') and created_at <= t`. -/
def countWaitProcLe (s : Store) (t : Int) : Nat :=
  (s.filter (fun r =>
    (r.status == Status.waiting || r.status == Status.processing)
      && decide (r.created_at ≤ t))).length

/-- JavaScript `count || 1`: a zero (or missing) count is reported as 1. -/
def posOr1 (c : Nat) : Nat := if c = 0 then 1 else c

/-- The `join` action: insert a fresh `waiting` row with
`created_at = now`, then count `status in ('waiting','processing') and
created_at <= data.created_at` and answer `{ queue_id, position: count || 1 }`.
The fresh `id` is generated by the database; here it is a parameter. -/
def joinAction (now : Int) (newId : Nat) (src tgt : String)
    (pay : Option String) (s : Store) : Store × JoinResp :=
  let row : Row :=
    { id := newId, source_repo := src, target_repo := tgt, payment_id := pay,
      status := Status.waiting, created_at := now,
      started_at := none, finished_at := none }
  let s2 := s ++ [row]
  (s2, { success := true, queue_id := newId,
         position := posOr1 (countWaitProcLe s2 now) })

/-- The query `select id where status = 'waiting' order by created_at
ascending limit 1`: earliest `created_at` wins, earlier row order breaking
ties. -/
def firstWaiting (s : Store) : Option Row :=
  (s.filter (fun r => r.status == Status.waiting)).foldl
    (fun acc r =>
      match acc with
      | none => some r
      | some a => if r.created_at < a.created_at then some r else some a)
    none

/-- The promotion write:
`update({ status: "processing", started_at: now }).eq("id", queue_id)`.
The update is filtered on `id` only — it carries no condition on the row's
current status nor on the absence of other `processing` rows. -/
def promoteStore (now : Int) (qid : Nat) (s : Store) : Store :=
  s.map (fun r =>
    if r.id = qid then
      { r with status := Status.processing, started_at := some now }
    else r)

/-- The `position` action (sequential semantics: the handler's database
calls run with no interference).  Branches, in source order: unknown id →
`not_found`; status already `processing`/`done` → reported directly; some
row `processing` → waiting report with position count; nothing processing
and this id is the first waiting row → promote; otherwise → waiting report. -/
def pollStatus (now : Int) (qid : Nat) (s : Store) : Store × PollResp :=
  match s.find? (fun r => r.id == qid) with
  | none =>
      (s, { success := true, position := 0, status := "not_found",
            can_start := none })
  | some e =>
      if e.status = Status.processing ∨ e.status = Status.done then
        (s, { success := true, position := 0, status := statusStr e.status,
              can_start := some (e.status == Status.processing) })
      else if s.any (fun r => r.status == Status.processing) then
        (s, { success := true,
              position := posOr1 (countWaitProcLe s e.created_at),
              status := "waiting", can_start := some false })
      else
        match firstWaiting s with
        | some fw =>
            if fw.id = qid then
              (promoteStore now qid s,
               { success := true, position := 0, status := "processing",
                 can_start := some true })
            else
              (s, { success := true,
                    position := posOr1 (countWaitProcLe s e.created_at),
                    status := "waiting", can_start := some false })
        | none =>
            (s, { success := true,
                  position := posOr1 (countWaitProcLe s e.created_at),
                  status := "waiting", can_start := some false })

/-- The `done` action:
`update({ status: "done", finished_at: now }).eq("id", queue_id)`, then
`{ success: true }`.  Unconditional on the row's current status. -/
def doneAction (now : Int) (qid : Nat) (s : Store) : Store × Bool :=
  (s.map (fun r =>
    if r.id = qid then
      { r with status := Status.done, finished_at := some now }
    else r), true)

/-- The `error` action:
`update({ status: "error", finished_at: now }).eq("id", queue_id)`, then
`{ success: true }`.  Unconditional on the row's current status. -/
def errorAction (now : Int) (qid : Nat) (s : Store) : Store × Bool :=
  (s.map (fun r =>
    if r.id = qid then
      { r with status := Status.error, finished_at := some now }
    else r), true)

/-- The auto-cleanup run at the top of every request: first delete rows with
`status in ('waiting','processing')` and `created_at < now - 30 min`, then
delete rows with `status in ('done','error')` and `created_at < now - 60 min`.
Both deletes compare `created_at`. -/
def sweep (now : Int) (s : Store) : Store :=
  let s1 := s.filter (fun r =>
    !((r.status == Status.waiting || r.status == Status.processing)
        && decide (r.created_at < now - 30 * 60 * 1000)))
  s1.filter (fun r =>
    !((r.status == Status.done || r.status == Status.error)
        && decide (r.created_at < now - 60 * 60 * 1000)))

/-- Number of rows currently holding the single `processing` slot. -/
def countProcessing (s : Store) : Nat :=
  (s.filter (fun r => r.status == Status.processing)).length

/-!
Interleaved semantics of concurrent `position` calls.  Each `await`ed
database call of the handler is one atomic micro-step; between two
micro-steps of one call, other calls may run.  A poll in flight is a
program counter recording what the call has already observed.
-/

/-- Program counter of one in-flight `position` call.
`afterEntry e`: the row was read as `e` (status neither `processing` nor
`done`); next micro-step reads the set of `processing` rows.
`afterProc e`: the `processing` read came back empty; next micro-step reads
the first waiting row.  `willPromote`: the first waiting row's id matched;
next micro-step performs the unconditional update.  `countState e`: next
micro-step runs the position count and answers a waiting report. -/
inductive PC where
  | start
  | afterEntry (e : Row)
  | afterProc (e : Row)
  | willPromote
  | countState (e : Row)
  | finished (resp : PollResp)
deriving DecidableEq, Repr

/-- One in-flight `position` call: its `queue_id`, the clock value its
update would write, and its program counter. -/
structure Proc where
  qid : Nat
  now : Int
  pc : PC
deriving DecidableEq, Repr

/-- One micro-step of one `position` call against the shared store: exactly
one database operation, as in the handler's source order. -/
def stepProc (now : Int) (qid : Nat) (s : Store) (pc : PC) : Store × PC :=
  match pc with
  | PC.start =>
      match s.find? (fun r => r.id == qid) with
      | none =>
          (s, PC.finished { success := true, position := 0,
                            status := "not_found", can_start := none })
      | some e =>
          if e.status = Status.processing ∨ e.status = Status.done then
            (s, PC.finished { success := true, position := 0,
                              status := statusStr e.status,
                              can_start := some (e.status == Status.processing) })
          else (s, PC.afterEntry e)
  | PC.afterEntry e =>
      if s.any (fun r => r.status == Status.processing) then
        (s, PC.countState e)
      else (s, PC.afterProc e)
  | PC.afterProc e =>
      match firstWaiting s with
      | some fw =>
          if fw.id = qid then (s, PC.willPromote) else (s, PC.countState e)
      | none => (s, PC.countState e)
  | PC.willPromote =>
      (promoteStore now qid s,
       PC.finished { success := true, position := 0, status := "processing",
                     can_start := some true })
  | PC.countState e =>
      (s, PC.finished { success := true,
                        position := posOr1 (countWaitProcLe s e.created_at),
                        status := "waiting", can_start := some false })
  | PC.finished resp => (s, PC.finished resp)

/-- Global step: the scheduler picks the in-flight call at index `i` and
runs its next micro-step. -/
def stepSys (g : Store × List Proc) (i : Nat) : Store × List Proc :=
  match g.2[i]? with
  | none => g
  | some p =>
      let t := stepProc p.now p.qid g.1 p.pc
      (t.1, g.2.set i { p with pc := t.2 })

/-- Run a whole schedule (a list of process indices) from an initial
configuration. -/
def runSched (g : Store × List Proc) (sched : List Nat) : Store × List Proc :=
  sched.foldl stepSys g

/-!  Helper lemmas about the embedded operations. -/

/-- The fold behind `firstWaiting` only ever answers an element of the list
or its initial accumulator. -/
lemma foldlMin_mem (l : List Row) (acc : Option Row) (x : Row)
    (h : l.foldl (fun acc r =>
        match acc with
        | none => some r
        | some a => if r.created_at < a.created_at then some r else some a)
      acc = some x) :
    x ∈ l ∨ acc = some x := by
  induction l generalizing acc with
  | nil => exact Or.inr h
  | cons r t ih =>
      rcases ih _ h with hx | hx
      · exact Or.inl (List.mem_cons_of_mem _ hx)
      · rcases acc with _ | a
        · simp only [Option.some.injEq] at hx
          exact Or.inl (hx ▸ List.mem_cons_self r t)
        · dsimp only at hx
          by_cases hlt : r.created_at < a.created_at
          · rw [if_pos hlt] at hx
            simp only [Option.some.injEq] at hx
            exact Or.inl (hx ▸ List.mem_cons_self r t)
          · rw [if_neg hlt] at hx
            exact Or.inr hx

/-- A row answered by the first-waiting query is in the store and has
status `waiting`. -/
lemma firstWaiting_mem (s : Store) (fw : Row) (h : firstWaiting s = some fw) :
    fw ∈ s ∧ fw.status = Status.waiting := by
  unfold firstWaiting at h
  rcases foldlMin_mem _ none fw h with hm | hm
  · have hm2 := List.mem_filter.mp hm
    refine ⟨hm2.1, ?_⟩
    have := hm2.2
    simpa using this
  · simp at hm

/-- With pairwise distinct ids (the table's primary key), looking a member
row up by its id finds exactly that row. -/
lemma find?_id_of_nodup (s : Store) (a : Row)
    (hnd : (s.map Row.id).Nodup) (ha : a ∈ s) :
    s.find? (fun r => r.id == a.id) = some a := by
  induction s with
  | nil => cases ha
  | cons h t ih =>
      rw [List.map_cons, List.nodup_cons] at hnd
      rcases List.mem_cons.mp ha with rfl | hat
      · rw [List.find?_cons_of_pos]
        simp
      · rw [List.find?_cons_of_neg, ih hnd.2 hat]
        simp only [beq_iff_eq]
        intro he
        exact hnd.1 (he ▸ List.mem_map_of_mem Row.id hat)

/-- With pairwise distinct ids, two member rows sharing an id are equal. -/
lemma eq_of_mem_of_id_eq (s : Store) (a b : Row)
    (hnd : (s.map Row.id).Nodup) (ha : a ∈ s) (hb : b ∈ s)
    (hid : a.id = b.id) : a = b :=
  List.inj_on_of_nodup_map hnd ha hb hid

/-- Mapping a function that fixes every element of a list is the identity. -/
lemma map_eq_self_of_fixed (s : Store) (f : Row → Row)
    (h : ∀ r ∈ s, f r = r) : s.map f = s := by
  rw [List.map_congr_left h]
  simp

/-- A waiting member row makes the position count positive, so the
JavaScript `count || 1` fallback never fires for it. -/
lemma countWaitProcLe_pos (s : Store) (e : Row) (he : e ∈ s)
    (hw : e.status = Status.waiting ∨ e.status = Status.processing) :
    0 < countWaitProcLe s e.created_at := by
  unfold countWaitProcLe
  rw [List.length_pos]
  intro hnil
  have : e ∈ s.filter (fun r =>
      (r.status == Status.waiting || r.status == Status.processing)
        && decide (r.created_at ≤ e.created_at)) := by
    rw [List.mem_filter]
    refine ⟨he, ?_⟩
    rcases hw with hw | hw <;> simp [hw]
  rw [hnil] at this
  cases this

/-- `posOr1` is the identity on positive counts. -/
lemma posOr1_of_pos (c : Nat) (h : 0 < c) : posOr1 c = c := by
  unfold posOr1
  split <;> omega

/-!  Concrete fixtures used to instantiate the theorems. -/

/-- A waiting job created at t = 0. -/
def jobA : Row :=
  { id := 1, source_repo := "sa", target_repo := "ta", payment_id := none,
    status := Status.waiting, created_at := 0,
    started_at := none, finished_at := none }

/-- A waiting job created at t = 1. -/
def jobB : Row :=
  { id := 2, source_repo := "sb", target_repo := "tb", payment_id := none,
    status := Status.waiting, created_at := 1,
    started_at := none, finished_at := none }

/-- A waiting job created at t = 2. -/
def jobC : Row :=
  { id := 3, source_repo := "sc", target_repo := "tc", payment_id := none,
    status := Status.waiting, created_at := 2,
    started_at := none, finished_at := none }

/-- A job that finished with status `error`. -/
def errJob : Row :=
  { id := 4, source_repo := "se", target_repo := "te", payment_id := none,
    status := Status.error, created_at := 0,
    started_at := some 1, finished_at := some 2 }

/-- A `done` job created long ago whose `finished_at` is recent. -/
def oldDoneRow : Row :=
  { id := 7, source_repo := "sd", target_repo := "td", payment_id := none,
    status := Status.done, created_at := 0,
    started_at := some 100, finished_at := some 3900000 }

/-- Modelled from the claim's words (spec, Retention Sweeper): delete
`waiting`/`processing` rows whose `created_at` is older than 30 minutes, and
`done`/`error` rows whose `finished_at` — or `created_at` when `finished_at`
is unset — is older than 60 minutes. -/
def sweepSpec (now : Int) (s : Store) : Store :=
  let s1 := s.filter (fun r =>
    !((r.status == Status.waiting || r.status == Status.processing)
        && decide (r.created_at < now - 30 * 60 * 1000)))
  s1.filter (fun r =>
    !((r.status == Status.done || r.status == Status.error)
        && decide ((r.finished_at.getD r.created_at) < now - 60 * 60 * 1000)))

/-!  Claim theorems. -/

/-- Claim C1: the claim states that under any interleaving of concurrent
`position` calls at most one job is ever `processing`.  The code refutes it:
starting from two waiting jobs (ids 1 and 2) and two in-flight polls, the
schedule below first lets poll 2 read the empty `processing` set, then runs
poll 1 to completion (promoting job 1), then lets poll 2 read the first
waiting row — now job 2, since job 1 is no longer waiting — so poll 2 also
promotes.  The final store has two `processing` rows. -/
theorem c1_mutual_exclusion_violated :
    countProcessing
      (runSched ([jobA, jobB],
        [{ qid := 1, now := 100, pc := PC.start },
         { qid := 2, now := 200, pc := PC.start }])
        [1, 1, 0, 0, 0, 0, 1, 1]).1 = 2 ∧
    (runSched ([jobA, jobB],
        [{ qid := 1, now := 100, pc := PC.start },
         { qid := 2, now := 200, pc := PC.start }])
        [1, 1, 0, 0, 0, 0, 1, 1]).2.all
      (fun p => p.pc == PC.finished
        { success := true, position := 0, status := "processing",
          can_start := some true }) = true := by
  decide

/-- Claim C2: the claim states that the promotion write succeeds only if no
row is `processing` and the target row is still `waiting`.  The embedded
write (`update({status:"processing",...}).eq("id", qid)`) carries neither
guard: applied while job 1 already holds the slot it still promotes job 2,
and applied to a `done` row it still overwrites it to `processing`. -/
theorem c2_promotion_write_has_no_guard :
    countProcessing
      (promoteStore 9 2
        [{ jobA with status := Status.processing, started_at := some 5 },
         jobB]) = 2 ∧
    promoteStore 9 1
        [{ jobA with status := Status.done, finished_at := some 5 }]
      = [{ jobA with
             status := Status.processing, started_at := some 9,
             finished_at := some 5 }] := by
  decide

/-- Claim C7 counterexample: a `done` row created 4000 seconds ago but
finished 100 seconds ago.  The claim (delete by `finished_at`, fall back to
`created_at` only when unset) keeps it; the code's sweep compares
`created_at` and deletes it. -/
theorem c7_counterexample_finished_recently_still_deleted :
    sweep 4000000 [oldDoneRow] = [] ∧
    sweepSpec 4000000 [oldDoneRow] = [oldDoneRow] := by
  decide

/-- Claim C7 as amended: the per-request sweep deletes exactly the
`waiting`/`processing` rows whose `created_at` is older than 30 minutes and
the `done`/`error` rows whose `created_at` (not `finished_at`) is older than
60 minutes; every other row — in particular a `processing` row younger than
the stale threshold — is kept, in order. -/
theorem c7_sweep_deletes_exactly_by_created_at (now : Int) (s : Store) :
    sweep now s = s.filter (fun r =>
      !((r.status == Status.waiting || r.status == Status.processing)
          && decide (r.created_at < now - 30 * 60 * 1000))
      && !((r.status == Status.done || r.status == Status.error)
          && decide (r.created_at < now - 60 * 60 * 1000))) ∧
    ∀ r ∈ s, (r ∈ sweep now s ↔
      ¬((r.status = Status.waiting ∨ r.status = Status.processing)
          ∧ r.created_at < now - 30 * 60 * 1000) ∧
      ¬((r.status = Status.done ∨ r.status = Status.error)
          ∧ r.created_at < now - 60 * 60 * 1000)) := by
  have hcomb : sweep now s = s.filter (fun r =>
      !((r.status == Status.waiting || r.status == Status.processing)
          && decide (r.created_at < now - 30 * 60 * 1000))
      && !((r.status == Status.done || r.status == Status.error)
          && decide (r.created_at < now - 60 * 60 * 1000))) := by
    unfold sweep
    rw [List.filter_filter]
    congr 1
    funext r
    exact Bool.and_comm _ _
  refine ⟨hcomb, ?_⟩
  intro r hr
  rw [hcomb, List.mem_filter]
  simp [hr]
  tauto

/-- Claim C8 counterexample: a job whose status is `error` is not terminal —
a later `done` call overwrites it to `done` (and bumps `finished_at`). -/
theorem c8_counterexample_done_overwrites_error :
    (doneAction 9 4 [errJob]).1
      = [{ errJob with status := Status.done, finished_at := some 9 }] := by
  decide

/-- Claim C8 as amended: `done` and `error` write unconditionally — they set
the identified row's status to `done` (respectively `error`) and its
`finished_at` to the clock value whatever its current status, terminal or
not, and leave every other row unchanged; terminal states are protected only
by the callers' discipline, not by the controller. -/
theorem c8_mark_actions_unconditional (now : Int) (qid : Nat) (s : Store)
    (r : Row) (hr : r ∈ s) (hid : r.id = qid) :
    { r with status := Status.done, finished_at := some now }
      ∈ (doneAction now qid s).1 ∧
    { r with status := Status.error, finished_at := some now }
      ∈ (errorAction now qid s).1 ∧
    ∀ q ∈ s, q.id ≠ qid →
      q ∈ (doneAction now qid s).1 ∧ q ∈ (errorAction now qid s).1 := by
  unfold doneAction errorAction
  dsimp only
  refine ⟨List.mem_map.mpr ⟨r, hr, by simp [hid]⟩,
    List.mem_map.mpr ⟨r, hr, by simp [hid]⟩, ?_⟩
  intro q hq hqid
  exact ⟨List.mem_map.mpr ⟨q, hq, by simp [hqid]⟩,
    List.mem_map.mpr ⟨q, hq, by simp [hqid]⟩⟩

/-- Witness for claim C8's amended theorem at the `error` fixture. -/
theorem c8_mark_actions_unconditional_witness :
    { errJob with status := Status.done, finished_at := some 9 }
      ∈ (doneAction 9 4 [errJob, jobA]).1 ∧
    jobA ∈ (doneAction 9 4 [errJob, jobA]).1 := by
  have h := c8_mark_actions_unconditional 9 4 [errJob, jobA] errJob
    (by decide) (by decide)
  exact ⟨h.1, (h.2.2 jobA (by decide) (by decide)).1⟩

/-- Witness for claim C7's amended theorem at a two-row store. -/
theorem c7_sweep_deletes_exactly_by_created_at_witness :
    oldDoneRow ∈ [oldDoneRow, jobA] ∧
    ¬ oldDoneRow ∈ sweep 4000000 [oldDoneRow, jobA] := by
  have h := (c7_sweep_deletes_exactly_by_created_at 4000000
    [oldDoneRow, jobA]).2 oldDoneRow (by decide)
  refine ⟨by decide, ?_⟩
  intro hm
  exact ((h.mp hm).2) (by decide)

/-- Claim C3 counterexample: two waiting jobs share `created_at = 5`; the
row with the larger id was inserted first.  The single oldest waiting job by
`(created_at, id)` ascending is id 1, yet polling id 1 does not promote it:
the first-waiting query orders by `created_at` alone, so the store's scan
order (here the earlier row, id 2) wins the comparison and the poll on id 1
only reports `waiting`. -/
theorem c3_counterexample_created_at_tie :
    pollStatus 10 1 [{ jobB with created_at := 5 }, { jobA with created_at := 5 }]
      = ([{ jobB with created_at := 5 }, { jobA with created_at := 5 }],
         { success := true, position := 2, status := "waiting",
           can_start := some false }) := by
  decide

/-- Claim C3 as amended: with no `processing` row and distinct row ids, a
poll on the id answered by the first-waiting query (`created_at` ascending,
ties broken by the store's order, not by id — in particular the unique
oldest waiting job when `created_at` values are distinct) promotes that job:
the response is `processing, can_start = true, position = 0`, the row is
rewritten with status `processing` and `started_at = now`, and every other
row is unchanged. -/
theorem c3_front_poll_promotes (now : Int) (qid : Nat) (s : Store) (fw : Row)
    (hnd : (s.map Row.id).Nodup)
    (hnp : s.any (fun r => r.status == Status.processing) = false)
    (hfw : firstWaiting s = some fw) (hid : fw.id = qid) :
    (pollStatus now qid s).2
      = { success := true, position := 0, status := "processing",
          can_start := some true } ∧
    { fw with status := Status.processing, started_at := some now }
      ∈ (pollStatus now qid s).1 ∧
    ∀ r ∈ s, r.id ≠ qid → r ∈ (pollStatus now qid s).1 := by
  obtain ⟨hmem, hw⟩ := firstWaiting_mem s fw hfw
  have hfind : s.find? (fun r => r.id == qid) = some fw := by
    rw [← hid]
    exact find?_id_of_nodup s fw hnd hmem
  have hps : pollStatus now qid s
      = (promoteStore now qid s,
         { success := true, position := 0, status := "processing",
           can_start := some true }) := by
    simp [pollStatus, hfind, hw, hnp, hfw, hid]
  refine ⟨by rw [hps], ?_, ?_⟩
  · rw [hps]
    exact List.mem_map.mpr ⟨fw, hmem, by simp [hid]⟩
  · intro r hr hrid
    rw [hps]
    exact List.mem_map.mpr ⟨r, hr, by simp [hrid]⟩

/-- Witness for claim C3's amended theorem: in `[jobA, jobB]` (distinct
creation times) the poll on id 1 promotes job 1. -/
theorem c3_front_poll_promotes_witness :
    (pollStatus 7 1 [jobA, jobB]).2
      = { success := true, position := 0, status := "processing",
          can_start := some true } ∧
    { jobA with status := Status.processing, started_at := some 7 }
      ∈ (pollStatus 7 1 [jobA, jobB]).1 ∧
    jobB ∈ (pollStatus 7 1 [jobA, jobB]).1 := by
  have h := c3_front_poll_promotes 7 1 [jobA, jobB] jobA
    (by decide) (by decide) (by decide) (by decide)
  exact ⟨h.1, h.2.1, h.2.2 jobB (by decide) (by decide)⟩

/-- Claim C4 counterexample: jobs 1, 2, 3 enqueued in that order, nothing
running.  The claim says the first poll on any id — here id 2 — promotes the
oldest waiting job (id 1).  The code only promotes when the polled id itself
is first: the poll on id 2 leaves the store unchanged (job 1 stays
`waiting`) and merely reports position 2. -/
theorem c4_counterexample_nonfront_poll_promotes_nothing :
    pollStatus 5 2 [jobA, jobB, jobC]
      = ([jobA, jobB, jobC],
         { success := true, position := 2, status := "waiting",
           can_start := some false }) := by
  decide

/-- Claim C4 as amended: promotion is a side effect only of the front job's
own poll.  With nothing `processing`, a poll on a waiting job whose id is
not the one answered by the first-waiting query changes no row at all and
reports `waiting` with the job's position count. -/
theorem c4_promotion_only_for_front (now : Int) (qid : Nat) (s : Store)
    (e fw : Row)
    (hfind : s.find? (fun r => r.id == qid) = some e)
    (hw : e.status = Status.waiting)
    (hnp : s.any (fun r => r.status == Status.processing) = false)
    (hfw : firstWaiting s = some fw)
    (hne : fw.id ≠ qid) :
    pollStatus now qid s
      = (s, { success := true,
              position := posOr1 (countWaitProcLe s e.created_at),
              status := "waiting", can_start := some false }) := by
  simp [pollStatus, hfind, hw, hnp, hfw, hne]

/-- Witness for claim C4's amended theorem: polling job 2 behind job 1. -/
theorem c4_promotion_only_for_front_witness :
    pollStatus 8 2 [jobA, jobB]
      = ([jobA, jobB],
         { success := true,
           position := posOr1 (countWaitProcLe [jobA, jobB] jobB.created_at),
           status := "waiting", can_start := some false }) := by
  exact c4_promotion_only_for_front 8 2 [jobA, jobB] jobB jobA
    (by decide) (by decide) (by decide) (by decide) (by decide)

/-- Claim C5: the reported position is
`count(status in (waiting, processing) and created_at <= own created_at)`,
both in the `join` response (counted over the store holding the fresh row)
and in the `position` response for a waiting job that is not promoted
(either some row is `processing`, or the first-waiting id differs).  The
JavaScript `count || 1` fallback never fires because the job's own row makes
the count at least 1. -/
theorem c5_position_is_count :
    (∀ (now : Int) (newId : Nat) (src tgt : String) (pay : Option String)
        (s : Store),
        ((joinAction now newId src tgt pay s).2).position
          = countWaitProcLe ((joinAction now newId src tgt pay s).1) now) ∧
    (∀ (now : Int) (qid : Nat) (s : Store) (e : Row),
        s.find? (fun r => r.id == qid) = some e →
        e.status = Status.waiting →
        (s.any (fun r => r.status == Status.processing) = true ∨
          (∃ fw, firstWaiting s = some fw ∧ fw.id ≠ qid)) →
        ((pollStatus now qid s).2).position
          = countWaitProcLe s e.created_at) := by
  constructor
  · intro now newId src tgt pay s
    unfold joinAction
    dsimp only
    apply posOr1_of_pos
    apply countWaitProcLe_pos _
      { id := newId, source_repo := src, target_repo := tgt,
        payment_id := pay, status := Status.waiting, created_at := now,
        started_at := none, finished_at := none }
      (by simp) (Or.inl rfl)
  · intro now qid s e hfind hw hbr
    have hmem := List.mem_of_find?_eq_some hfind
    have hpos : 0 < countWaitProcLe s e.created_at :=
      countWaitProcLe_pos s e hmem (Or.inl hw)
    rcases hbr with hproc | ⟨fw, hfw, hne⟩
    · simp [pollStatus, hfind, hw, hproc, posOr1_of_pos _ hpos]
    · cases hany : s.any (fun r => r.status == Status.processing) with
      | true => simp [pollStatus, hfind, hw, hany, posOr1_of_pos _ hpos]
      | false =>
          simp [pollStatus, hfind, hw, hany, hfw, hne, posOr1_of_pos _ hpos]

/-- Witness for claim C5 at a join over `[jobA]` and a poll on job 2 behind
job 1. -/
theorem c5_position_is_count_witness :
    ((joinAction 4 9 "s" "t" none [jobA]).2).position
      = countWaitProcLe ((joinAction 4 9 "s" "t" none [jobA]).1) 4 ∧
    ((pollStatus 5 2 [jobA, jobB]).2).position
      = countWaitProcLe [jobA, jobB] jobB.created_at := by
  have h := c5_position_is_count
  exact ⟨h.1 4 9 "s" "t" none [jobA],
    h.2 5 2 [jobA, jobB] jobB (by decide) (by decide)
      (Or.inr ⟨jobA, by decide, by decide⟩)⟩

/-- Claim C6: on an id absent from the store, all three operations answer a
success response rather than an error: `position` reports
`not_found` with position 0 (and no `can_start` field), and `done`/`error`
answer `{ success: true }` leaving the store unchanged. -/
theorem c6_unknown_id_reports_success (now : Int) (qid : Nat) (s : Store)
    (habs : s.all (fun r => !(r.id == qid)) = true) :
    pollStatus now qid s
      = (s, { success := true, position := 0, status := "not_found",
              can_start := none }) ∧
    doneAction now qid s = (s, true) ∧
    errorAction now qid s = (s, true) := by
  have hfix : ∀ r ∈ s, r.id ≠ qid := by
    intro r hr
    have := (List.all_eq_true.mp habs) r hr
    simpa using this
  have hfind : s.find? (fun r => r.id == qid) = none := by
    rw [List.find?_eq_none]
    intro x hx
    simpa using hfix x hx
  refine ⟨by simp [pollStatus, hfind], ?_, ?_⟩
  · have hmap : s.map (fun r =>
        if r.id = qid then
          { r with status := Status.done, finished_at := some now }
        else r) = s :=
      map_eq_self_of_fixed s _ (fun r hr => if_neg (hfix r hr))
    simp [doneAction, hmap]
  · have hmap : s.map (fun r =>
        if r.id = qid then
          { r with status := Status.error, finished_at := some now }
        else r) = s :=
      map_eq_self_of_fixed s _ (fun r hr => if_neg (hfix r hr))
    simp [errorAction, hmap]

/-- Witness for claim C6: id 99 is unknown to the one-row store `[jobA]`. -/
theorem c6_unknown_id_reports_success_witness :
    pollStatus 3 99 [jobA]
      = ([jobA], { success := true, position := 0, status := "not_found",
                   can_start := none }) ∧
    doneAction 3 99 [jobA] = ([jobA], true) := by
  have h := c6_unknown_id_reports_success 3 99 [jobA] (by decide)
  exact ⟨h.1, h.2.1⟩

/-- Claim C10: a poll on a job whose status is `error` falls through both
the direct-report branch (which tests only `processing`/`done`) and the
promotion branch (the first-waiting query selects only `waiting` rows, and
ids are distinct), so it answers `waiting` with `can_start = false` — never
`error` — and changes no row. -/
theorem c10_error_job_polls_as_waiting (now : Int) (qid : Nat) (s : Store)
    (e : Row)
    (hnd : (s.map Row.id).Nodup)
    (hfind : s.find? (fun r => r.id == qid) = some e)
    (herr : e.status = Status.error) :
    (pollStatus now qid s).1 = s ∧
    ((pollStatus now qid s).2).status = "waiting" ∧
    ((pollStatus now qid s).2).can_start = some false := by
  have hmem := List.mem_of_find?_eq_some hfind
  have hqid : e.id = qid := by
    have := List.find?_some hfind
    simpa using this
  cases hany : s.any (fun r => r.status == Status.processing) with
  | true => simp [pollStatus, hfind, herr, hany]
  | false =>
      cases hfw : firstWaiting s with
      | none => simp [pollStatus, hfind, herr, hany, hfw]
      | some fw =>
          obtain ⟨hfwm, hfww⟩ := firstWaiting_mem s fw hfw
          have hne : fw.id ≠ qid := by
            intro h
            have heq : fw = e :=
              eq_of_mem_of_id_eq s fw e hnd hfwm hmem (h.trans hqid.symm)
            have hws : e.status = Status.waiting := heq ▸ hfww
            rw [herr] at hws
            simp at hws
          simp [pollStatus, hfind, herr, hany, hfw, hne]

/-- Witness for claim C10 at the `error` fixture sharing the store with a
waiting job. -/
theorem c10_error_job_polls_as_waiting_witness :
    (pollStatus 6 4 [errJob, jobA]).1 = [errJob, jobA] ∧
    ((pollStatus 6 4 [errJob, jobA]).2).status = "waiting" ∧
    ((pollStatus 6 4 [errJob, jobA]).2).can_start = some false := by
  exact c10_error_job_polls_as_waiting 6 4 [errJob, jobA] errJob
    (by decide) (by decide) (by decide)

/-!  Reachability and the timestamp/status invariant (claim C9). -/

/-- The spec's claimed per-row correspondence: `started_at` is null iff the
status is `waiting`, and `finished_at` is non-null iff the status is `done`
or `error`. -/
def rowInv (r : Row) : Prop :=
  (r.started_at = none ↔ r.status = Status.waiting) ∧
  (r.finished_at ≠ none ↔ (r.status = Status.done ∨ r.status = Status.error))

/-- Stores reachable from the empty table by the four actions, the database
assigning a fresh id at each insert (`remix_queue.id` is a generated primary
key). -/
inductive Reachable : Store → Prop where
  | init : Reachable []
  | join (now : Int) (newId : Nat) (src tgt : String) (pay : Option String)
      (s : Store) : Reachable s → newId ∉ s.map Row.id →
      Reachable (joinAction now newId src tgt pay s).1
  | poll (now : Int) (qid : Nat) (s : Store) :
      Reachable s → Reachable (pollStatus now qid s).1
  | markDone (now : Int) (qid : Nat) (s : Store) :
      Reachable s → Reachable (doneAction now qid s).1
  | markError (now : Int) (qid : Nat) (s : Store) :
      Reachable s → Reachable (errorAction now qid s).1

/-- Reachability when callers follow the protocol: `done` and `error` are
issued only while the identified row holds status `processing`. -/
inductive ReachableP : Store → Prop where
  | init : ReachableP []
  | join (now : Int) (newId : Nat) (src tgt : String) (pay : Option String)
      (s : Store) : ReachableP s → newId ∉ s.map Row.id →
      ReachableP (joinAction now newId src tgt pay s).1
  | poll (now : Int) (qid : Nat) (s : Store) :
      ReachableP s → ReachableP (pollStatus now qid s).1
  | markDone (now : Int) (qid : Nat) (s : Store) :
      ReachableP s → (∀ r ∈ s, r.id = qid → r.status = Status.processing) →
      ReachableP (doneAction now qid s).1
  | markError (now : Int) (qid : Nat) (s : Store) :
      ReachableP s → (∀ r ∈ s, r.id = qid → r.status = Status.processing) →
      ReachableP (errorAction now qid s).1

/-- A row update that keeps ids keeps the store's id list. -/
lemma map_preserves_ids (s : Store) (f : Row → Row)
    (h : ∀ r, (f r).id = r.id) :
    (s.map f).map Row.id = s.map Row.id := by
  rw [List.map_map]
  apply List.map_congr_left
  intro r _
  exact h r

/-- The store after a `position` call is either untouched or the result of
promoting the first waiting row, whose id is then the polled id. -/
lemma pollStatus_store_cases (now : Int) (qid : Nat) (s : Store) :
    (pollStatus now qid s).1 = s ∨
    ∃ fw, fw ∈ s ∧ fw.status = Status.waiting ∧ fw.id = qid ∧
      (pollStatus now qid s).1 = promoteStore now qid s := by
  unfold pollStatus
  cases hfind : s.find? (fun r => r.id == qid) with
  | none => exact Or.inl rfl
  | some e =>
      by_cases hst : e.status = Status.processing ∨ e.status = Status.done
      · dsimp only
        rw [if_pos hst]
        exact Or.inl rfl
      · dsimp only
        rw [if_neg hst]
        by_cases hany : s.any (fun r => r.status == Status.processing) = true
        · rw [if_pos hany]
          exact Or.inl rfl
        · rw [if_neg hany]
          cases hfw : firstWaiting s with
          | none => exact Or.inl rfl
          | some fw =>
              by_cases hid : fw.id = qid
              · obtain ⟨hm, hw⟩ := firstWaiting_mem s fw hfw
                dsimp only
                rw [if_pos hid]
                exact Or.inr ⟨fw, hm, hw, hid, rfl⟩
              · dsimp only
                rw [if_neg hid]
                exact Or.inl rfl

/-- Protocol-respecting runs keep ids pairwise distinct and every row
satisfying the timestamp/status correspondence. -/
lemma reachableP_inv (s : Store) (h : ReachableP s) :
    (s.map Row.id).Nodup ∧ ∀ r ∈ s, rowInv r := by
  induction h with
  | init => simp
  | join now newId src tgt pay s hs hfresh ih =>
      unfold joinAction
      dsimp only
      constructor
      · rw [List.map_append]
        refine List.Nodup.append ih.1 (by simp) ?_
        intro a ha hb
        simp only [List.map_cons, List.map_nil, List.mem_singleton] at hb
        exact hfresh (hb ▸ ha)
      · intro r hr
        rcases List.mem_append.mp hr with hr | hr
        · exact ih.2 r hr
        · have := List.mem_singleton.mp hr
          subst this
          constructor <;> simp
  | poll now qid s hs ih =>
      rcases pollStatus_store_cases now qid s with hcase |
        ⟨fw, hfwm, hfww, hfwid, hcase⟩
      · rw [hcase]
        exact ih
      · rw [hcase]
        constructor
        · unfold promoteStore
          rw [map_preserves_ids s _ (fun r => by
            by_cases h : r.id = qid <;> simp [h])]
          exact ih.1
        · intro r hr
          unfold promoteStore at hr
          rcases List.mem_map.mp hr with ⟨a, ha, rfl⟩
          by_cases hid : a.id = qid
          · have haw : a.status = Status.waiting := by
              have heq : a = fw :=
                eq_of_mem_of_id_eq s a fw ih.1 ha hfwm (hid.trans hfwid.symm)
              rw [heq]
              exact hfww
            have hfin : a.finished_at = none := by
              by_contra hne
              have h2 := ((ih.2 a ha).2).mp hne
              rw [haw] at h2
              rcases h2 with h3 | h3 <;> simp at h3
            simp only [if_pos hid]
            constructor
            · simp
            · simp [hfin]
          · simp only [if_neg hid]
            exact ih.2 a ha
  | markDone now qid s hs hproto ih =>
      unfold doneAction
      dsimp only
      constructor
      · rw [map_preserves_ids s _ (fun r => by
          by_cases h : r.id = qid <;> simp [h])]
        exact ih.1
      · intro r hr
        rcases List.mem_map.mp hr with ⟨a, ha, rfl⟩
        by_cases hid : a.id = qid
        · have hap : a.status = Status.processing := hproto a ha hid
          have hst : ¬ a.started_at = none := by
            intro h0
            have := ((ih.2 a ha).1).mp h0
            rw [hap] at this
            simp at this
          simp only [if_pos hid]
          constructor
          · simp [hst]
          · simp
        · simp only [if_neg hid]
          exact ih.2 a ha
  | markError now qid s hs hproto ih =>
      unfold errorAction
      dsimp only
      constructor
      · rw [map_preserves_ids s _ (fun r => by
          by_cases h : r.id = qid <;> simp [h])]
        exact ih.1
      · intro r hr
        rcases List.mem_map.mp hr with ⟨a, ha, rfl⟩
        by_cases hid : a.id = qid
        · have hap : a.status = Status.processing := hproto a ha hid
          have hst : ¬ a.started_at = none := by
            intro h0
            have := ((ih.2 a ha).1).mp h0
            rw [hap] at this
            simp at this
          simp only [if_pos hid]
          constructor
          · simp [hst]
          · simp
        · simp only [if_neg hid]
          exact ih.2 a ha

/-- Claim C9 counterexample: enqueue job 1, then mark it done before it ever
runs.  The resulting store is reachable by the four operations — the code
accepts `done` on a `waiting` job — yet its row has status `done` with
`started_at` still null, refuting "`started_at` is null iff status is
`waiting`". -/
theorem c9_counterexample_done_without_start :
    Reachable (doneAction 5 1 (joinAction 0 1 "s" "t" none []).1).1 ∧
    ∃ r ∈ (doneAction 5 1 (joinAction 0 1 "s" "t" none []).1).1,
      r.status = Status.done ∧ r.started_at = none := by
  constructor
  · exact Reachable.markDone 5 1 _
      (Reachable.join 0 1 "s" "t" none [] Reachable.init (by simp))
  · decide

/-- Claim C9 as amended: in every store reachable when `done`/`error` are
issued only for rows currently `processing` (the protocol the spec
describes), every row satisfies both correspondences: `started_at` is null
iff status is `waiting`, and `finished_at` is non-null iff status is `done`
or `error`.  Without that restriction the first correspondence fails (see
the counterexample). -/
theorem c9_timestamp_invariant_under_protocol (s : Store)
    (h : ReachableP s) :
    ∀ r ∈ s, rowInv r :=
  (reachableP_inv s h).2

/-- Witness for claim C9's amended theorem at the store holding one freshly
enqueued job. -/
theorem c9_timestamp_invariant_under_protocol_witness :
    rowInv { id := 1, source_repo := "s", target_repo := "t",
             payment_id := none, status := Status.waiting, created_at := 0,
             started_at := none, finished_at := none } := by
  have hreach : ReachableP (joinAction 0 1 "s" "t" none []).1 :=
    ReachableP.join 0 1 "s" "t" none [] ReachableP.init (by simp)
  exact c9_timestamp_invariant_under_protocol _ hreach _ (by decide)

end RemixQueue
